import Mathlib

/-!
Verification development for the VoiceActorLaboratory repository.

Shallow embedding of the core components (src/project.py, src/recorder.py,
src/script_format.py, src/storage.py).  Python strings are modelled as
`List Char` (code-point sequences, `\n` as the only line separator),
machine audio blocks as `List Int` (int16 samples), and fallible Python
calls as `Except`/`Option` values.  Each definition is translated from the
source file named in its doc comment.
-/

/-- Embedding of `TakeInfo` (src/project.py lines 9-18): metadata of one take. -/
structure TakeInfo where
  id : String
  wav_filename : String
  memo : String := ""
  favorite : Bool := false
  created_at : String := ""
  adopted : Bool := false
deriving DecidableEq

/-- Embedding of `Project` (src/project.py lines 32-39). -/
structure Project where
  script_path : String := ""
  script_text : String := ""
  takes : List TakeInfo := []
  project_dir : String := ""
deriving DecidableEq

/-- Embedding of `Project.get_take` (src/project.py lines 50-55): first take whose id matches. -/
def Project.get_take (p : Project) (take_id : String) : Option TakeInfo :=
  p.takes.find? (fun t => t.id == take_id)

/-- Helper for the Python in-place mutation pattern `t = get_take(id); mutate t`:
rewrites the first take whose id matches, leaves the rest untouched. -/
def modifyFirstMatch (take_id : String) (f : TakeInfo → TakeInfo) : List TakeInfo → List TakeInfo
  | [] => []
  | t :: ts => if t.id == take_id then f t :: ts else t :: modifyFirstMatch take_id f ts

/-- Embedding of the loop body of `update_take_adopted`'s adopted=True branch
(src/project.py lines 79-80): `for x in self.takes: x.adopted = x.id == take_id`. -/
def setAdoptedFlags (take_id : String) (ts : List TakeInfo) : List TakeInfo :=
  ts.map (fun x => { x with adopted := x.id == take_id })

/-- Embedding of `Project.update_take_adopted` (src/project.py lines 73-83).
Returns the Python boolean result together with the post-call project. -/
def Project.update_take_adopted (p : Project) (take_id : String) (adopted : Bool) :
    Bool × Project :=
  match p.get_take take_id with
  | none => (false, p)
  | some _ =>
    if adopted then (true, { p with takes := setAdoptedFlags take_id p.takes })
    else (true, { p with takes := modifyFirstMatch take_id (fun t => { t with adopted := false }) p.takes })

/-- Embedding of `storage.update_take_meta` (src/storage.py lines 118-139).
The `load_project(project_dir)` round trip is passed in as `loaded` (the parsed
on-disk metadata; `_save_meta` writes `proj.takes` back verbatim, so the
returned project's `takes` list is the resulting on-disk metadata).  Fields
given as `none` are left unchanged, mirroring the `is not None` guards. -/
def update_take_meta (loaded : Option Project) (take_id : String)
    (memo : Option String) (favorite : Option Bool) (adopted : Option Bool) :
    Bool × Option Project :=
  match loaded with
  | none => (false, none)
  | some proj =>
    match proj.get_take take_id with
    | none => (false, some proj)
    | some _ =>
      let p1 := match memo with
        | none => proj
        | some m => { proj with takes := modifyFirstMatch take_id (fun t => { t with memo := m }) proj.takes }
      let p2 := match favorite with
        | none => p1
        | some b => { p1 with takes := modifyFirstMatch take_id (fun t => { t with favorite := b }) p1.takes }
      let p3 := match adopted with
        | none => p2
        | some b => (p2.update_take_adopted take_id b).2
      (true, some p3)

/-- Fixed capture sample rate (src/recorder.py line 11). -/
def SAMPLE_RATE : Nat := 44100

/-- Result of a Python call that can return a boolean or raise. -/
inductive CallResult where
  | retFalse
  | retTrue
  | raised
deriving DecidableEq

/-- Embedding of `Recorder` state (src/recorder.py lines 19-25): the two flags,
the list of buffered audio blocks (in receipt order) and whether a capture
stream is currently open. -/
structure Recorder where
  is_recording : Bool := false
  is_paused : Bool := false
  buffer : List (List Int) := []
  stream : Bool := false
deriving DecidableEq

/-- Embedding of `Recorder.start` (src/recorder.py lines 66-83).  `openOk`
states whether `_start_stream()` succeeds; on failure the handler resets
`_is_recording` and re-raises. -/
def Recorder.start (r : Recorder) (openOk : Bool) : CallResult × Recorder :=
  if r.is_recording then (.retFalse, r)
  else
    let r1 : Recorder := { r with is_recording := true, is_paused := false, buffer := [] }
    if openOk then (.retTrue, { r1 with stream := true })
    else (.raised, { r1 with is_recording := false })

/-- Embedding of `Recorder.pause` (src/recorder.py lines 85-92): sets the flag
unconditionally and releases the stream if open. -/
def Recorder.pause (r : Recorder) : Recorder :=
  { r with is_paused := true, stream := false }

/-- Embedding of `Recorder.resume` (src/recorder.py lines 94-106).  On stream
open failure the handler restores `_is_paused := true` and re-raises. -/
def Recorder.resume (r : Recorder) (openOk : Bool) : CallResult × Recorder :=
  if !r.is_recording || !r.is_paused then (.retFalse, r)
  else
    let r1 : Recorder := { r with is_paused := false }
    if openOk then (.retTrue, { r1 with stream := true })
    else (.raised, { r1 with is_paused := true })

/-- Embedding of `Recorder.stop` (src/recorder.py lines 108-116). -/
def Recorder.stop (r : Recorder) : Recorder :=
  { r with is_recording := false, is_paused := false, stream := false }

/-- Embedding of `Recorder._callback` (src/recorder.py lines 47-50): appends a
delivered block only while recording and not paused. -/
def Recorder.callback (r : Recorder) (block : List Int) : Recorder :=
  if r.is_recording && !r.is_paused then { r with buffer := r.buffer ++ [block] } else r

/-- Embedding of `Recorder.save_to_wav` (src/recorder.py lines 118-131).
`none` models `return False` with no file created (the empty-buffer early
return happens before any directory/file is touched); `some (samples, rate)`
models a successful 16-bit PCM mono write of the concatenated blocks at the
fixed sample rate together with `return True`. -/
def Recorder.save_to_wav (r : Recorder) : Option (List Int × Nat) :=
  if r.buffer.isEmpty then none else some (r.buffer.flatten, SAMPLE_RATE)

/-- Modelled from the spec: `Storage.get_wav_duration_seconds` is absent from
the sources under src/ (only its tests in tests/test_storage.py and its caller
in src/ui/main_window.py appear).  Per spec section 4.3 it "returns 0.0 for a
missing or unreadable file; otherwise the audio duration computed from sample
count and sample rate metadata of the file".  The file read is modelled as
`none` (missing/unreadable) or `some (frames, samplerate)`. -/
def get_wav_duration_seconds (wavMeta : Option (Nat × Nat)) : ℚ :=
  match wavMeta with
  | none => 0
  | some fr => (fr.1 : ℚ) / (fr.2 : ℚ)

/-- ASCII whitespace, modelling Python `str.strip()` / regex `\s` on the
development's character domain (`\n` is the only line separator considered). -/
def isWsChar (c : Char) : Bool :=
  c == ' ' || c == '\t' || c == '\n' || c == '\r' || c == '\x0b' || c == '\x0c'

/-- Right-strip: removes the maximal trailing run of characters satisfying `p`
(Python `str.rstrip`). -/
def rstripBy (p : Char → Bool) : List Char → List Char
  | [] => []
  | c :: cs =>
    match rstripBy p cs with
    | [] => if p c then [] else [c]
    | r => c :: r

/-- Python `str.strip()` (left- then right-strip of whitespace). -/
def pyStrip (l : List Char) : List Char :=
  rstripBy isWsChar (l.dropWhile isWsChar)

/-- Helper for `splitlinesNl`: prepends a character to the first line of an
already split tail. -/
def consHead (c : Char) : List (List Char) → List (List Char)
  | [] => [[c]]
  | l :: ls => (c :: l) :: ls

/-- Python `str.splitlines()` restricted to `\n` separators: `""` gives no
lines, a trailing `\n` does not produce a final empty line. -/
def splitlinesNl : List Char → List (List Char)
  | [] => []
  | c :: cs => if c = '\n' then [] :: splitlinesNl cs else consHead c (splitlinesNl cs)

/-- Embedding of the `for line in reversed(lines)` loop of
`get_current_section` (src/script_format.py lines 24-33): first line (in the
given order) whose stripped text starts with a heading marker, `## ` checked
before `# `; empty string when none matches. -/
def scanSections : List (List Char) → List Char
  | [] => []
  | line :: rest =>
    let s := pyStrip line
    if ['#', '#', ' '].isPrefixOf s then pyStrip (s.drop 3)
    else if ['#', ' '].isPrefixOf s then pyStrip (s.drop 2)
    else scanSections rest

/-- Embedding of `get_current_section` (src/script_format.py lines 13-33).
`before.rfind("\n") + 1` is `line_start`; `rest_of_line` is the text from the
cursor to the end of its line, added only when the cursor is not at the start
of its line. -/
def get_current_section (script_text : List Char) (cursor_position : Nat) : List Char :=
  let before := script_text.take cursor_position
  let line_start := before.length - (before.reverse.takeWhile (· != '\n')).length
  let rest_of_line :=
    if line_start < cursor_position then (script_text.drop cursor_position).takeWhile (· != '\n')
    else []
  let full_before := before ++ rest_of_line
  scanSections (splitlinesNl full_before).reverse

/-- Reference function for the amended claim C3, written from the amended
spec wording: the scanned region is the script up to the END of the line
containing the cursor (the whole cursor line, text after the cursor
included), except that when the cursor sits at the start of its line that
line contributes nothing; the nearest preceding heading line (`## ` before
`# `) in that region gives the section name. -/
def current_section_ref (script_text : List Char) (cursor_position : Nat) : List Char :=
  let before := script_text.take cursor_position
  let line_start := before.length - (before.reverse.takeWhile (· != '\n')).length
  let considered :=
    if line_start < cursor_position then
      script_text.take
        (cursor_position + ((script_text.drop cursor_position).takeWhile (· != '\n')).length)
    else before
  scanSections (splitlinesNl considered).reverse

/-- The nine filesystem-illegal characters of the regex in
`sanitize_for_filename` (src/script_format.py line 46). -/
def isIllegalChar (c : Char) : Bool :=
  c == '\\' || c == '/' || c == ':' || c == '*' || c == '?' || c == '"' ||
    c == '<' || c == '>' || c == '|'

/-- Characters stripped from the ends by `lstrip("._ ")` / `rstrip("._ ")`. -/
def isStripChar (c : Char) : Bool :=
  c == '.' || c == '_' || c == ' '

/-- Replaces every maximal run of characters satisfying `p` by a single `_`
(the semantics of `re.sub(r"[...]+", "_", n)`); the flag records whether the
previous character was part of a run. -/
def subRuns (p : Char → Bool) : List Char → Bool → List Char
  | [], _ => []
  | c :: cs, inRun =>
    if p c then
      if inRun then subRuns p cs true else '_' :: subRuns p cs true
    else c :: subRuns p cs false

/-- Embedding of one `re.sub(..., "_", n)` call of `sanitize_for_filename`. -/
def pySubUnderscore (p : Char → Bool) (l : List Char) : List Char :=
  subRuns p l false

/-- Embedding of `unicodedata.normalize("NFKC", name)`
(src/script_format.py line 44).  Modelled as the identity map: the
development's character domain is code points fixed by NFKC (all ASCII in
particular), on which NFKC is the identity. -/
def nfkcNormalize (l : List Char) : List Char := l

/-- Embedding of `sanitize_for_filename` (src/script_format.py lines 36-52):
normalize, replace runs of illegal characters and whitespace by `_`, replace
whitespace runs again, left-strip `._ `, truncate to `maxLength`, right-strip
`._ `. -/
def sanitize_for_filename (name : List Char) (maxLength : Nat := 64) : List Char :=
  if name.isEmpty then []
  else
    let n1 := nfkcNormalize name
    let n2 := pySubUnderscore (fun c => isIllegalChar c || isWsChar c) n1
    let n3 := pySubUnderscore isWsChar n2
    let n4 := n3.dropWhile isStripChar
    if n4.isEmpty then []
    else rstripBy isStripChar (n4.take maxLength)

/-- Case-insensitive character comparison, modelling `re.IGNORECASE` on the
ASCII domain. -/
def ciEq (a b : Char) : Bool := a.toLower == b.toLower

/-- Numeric value of a decimal digit string (`int(m.group(1))`). -/
def digitsToNat (ds : List Char) : Nat :=
  ds.foldl (fun a c => 10 * a + (c.toNat - 48)) 0

/-- Matching of the compiled pattern `re.escape(prefix) + r"_(\d+)"` with
`re.IGNORECASE` at the START of a string (`pattern.match`): the escaped stem
is matched literally but case-insensitively, then `_`, then a maximal
nonempty digit run whose value is returned. -/
def matchNum : List Char → List Char → Option Nat
  | [], s =>
    match s with
    | '_' :: rest =>
      let ds := rest.takeWhile Char.isDigit
      if ds.isEmpty then none else some (digitsToNat ds)
    | _ => none
  | _ :: _, [] => none
  | b :: bs, c :: cs => if ciEq b c then matchNum bs cs else none

/-- Matching of the same pattern anywhere in the string (`pattern.search`):
leftmost occurrence. -/
def searchNum (stem : List Char) : List Char → Option Nat
  | [] => matchNum stem []
  | c :: cs =>
    match matchNum stem (c :: cs) with
    | some n => some n
    | none => searchNum stem cs

/-- Test `base.lower().endswith(".wav")` (src/script_format.py line 71). -/
def lowerEndsWithWav (f : List Char) : Bool :=
  ".wav".toList.isSuffixOf (f.map Char.toLower)

/-- Python `f"{n:02d}"`: decimal digits, zero-padded on the left to width 2. -/
def pad2 (n : Nat) : List Char :=
  if n < 10 then '0' :: Nat.toDigits 10 n else Nat.toDigits 10 n

/-- Embedding of one iteration of the `for f in existing_wav_filenames` loop
of `suggest_take_basename` (src/script_format.py lines 69-75): strip a
case-insensitive `.wav` suffix, then `pattern.match(base) or
pattern.search(base)`, and fold the matched number into the running maximum. -/
def scanOne (stem : List Char) (maxN : Nat) (f : List Char) : Nat :=
  let base := if lowerEndsWithWav f then f.take (f.length - 4) else f
  let m := match matchNum stem base with
    | some n => some n
    | none => searchNum stem base
  match m with
  | some n => max maxN n
  | none => maxN

/-- Embedding of src/script_format.py lines 66-76: the numbering scan of
`suggest_take_basename` for a fixed stem (`prefix` in the source). -/
def suggestFromStem (stem : List Char) (existing_wav_filenames : List (List Char)) : List Char :=
  let maxN := existing_wav_filenames.foldl (scanOne stem) 0
  stem ++ '_' :: pad2 (maxN + 1)

/-- Embedding of `suggest_take_basename` (src/script_format.py lines 55-76).
Note the source falls back to `"take"` only when the section is empty
(`if section`); a nonempty section that sanitizes to the empty string keeps
the empty stem. -/
def suggest_take_basename (script_text : List Char) (cursor_position : Nat)
    (existing_wav_filenames : List (List Char)) : List Char :=
  let sect := get_current_section script_text cursor_position
  let stem := if sect.isEmpty then "take".toList else sanitize_for_filename sect
  suggestFromStem stem existing_wav_filenames

/-- Python values a metadata JSON file can parse to (`json.loads` output). -/
inductive Json where
  | null
  | jbool (b : Bool)
  | jnum (n : Int)
  | jstr (s : String)
  | jarr (xs : List Json)
  | jobj (kvs : List (String × Json))

/-- Python exceptions reachable from `load_project` (src/storage.py). -/
inductive PyExc where
  | unicodeDecodeError
  | typeError
  | attributeError
  | keyError
deriving DecidableEq

/-- On-disk states of the metadata file `project_meta.json`.  `unreadableOS`
is a file whose read raises `OSError`; `notUtf8` is a file whose bytes are
not valid UTF-8, so `read_text(encoding="utf-8")` raises
`UnicodeDecodeError`; `badJson` is UTF-8 text that `json.loads` rejects with
`json.JSONDecodeError`. -/
inductive MetaFile where
  | absent
  | unreadableOS
  | notUtf8
  | badJson
  | json (j : Json)

/-- Embedding of `_load_meta` (src/storage.py lines 211-218).  The `except`
clause catches exactly `json.JSONDecodeError` and `OSError`;
`UnicodeDecodeError` raised by `read_text` is a `ValueError` and is caught by
neither, so it propagates. -/
def loadMeta : MetaFile → Except PyExc (Option Json)
  | .absent => .ok none
  | .unreadableOS => .ok none
  | .notUtf8 => .error .unicodeDecodeError
  | .badJson => .ok none
  | .json j => .ok (some j)

/-- Python truthiness of a parsed JSON value (`if meta ...`). -/
def jsonTruthy : Json → Bool
  | .null => false
  | .jbool b => b
  | .jnum n => !(n == 0)
  | .jstr s => !(s.isEmpty)
  | .jarr xs => !(xs.isEmpty)
  | .jobj kvs => !(kvs.isEmpty)

/-- The metadata key looked up by `load_project`. -/
def takesKey : String := "takes"

/-- Python `needle == v` where `needle` is a string: equal only to an equal
string, `False` against any other type (no error). -/
def pyEqStr (needle : String) : Json → Bool
  | .jstr t => needle == t
  | _ => false

/-- Substring test (Python `needle in s` on strings): the needle occurs as a
contiguous run somewhere in the haystack. -/
def containsSub (needle : List Char) : List Char → Bool
  | [] => needle.isEmpty
  | c :: cs => needle.isPrefixOf (c :: cs) || containsSub needle cs

/-- Python `needle in v` for a string needle (`"takes" in meta`): key lookup
for a dict, element equality for a list, substring test for a string,
`TypeError` for non-containers. -/
def pyIn (needle : String) : Json → Except PyExc Bool
  | .jobj kvs => .ok (kvs.any (fun kv => kv.1 == needle))
  | .jarr xs => .ok (xs.any (pyEqStr needle))
  | .jstr t => .ok (containsSub needle.toList t.toList)
  | _ => .error .typeError

/-- Python `v[key]` for a string key (`meta["takes"]`): dict lookup
(`KeyError` when missing), `TypeError` on any other type.  `jobj` models the
dict produced by `json.loads`, whose keys are unique. -/
def pySubscript (j : Json) (key : String) : Except PyExc Json :=
  match j with
  | .jobj kvs =>
    match kvs.find? (fun kv => kv.1 == key) with
    | some kv => .ok kv.2
    | none => .error .keyError
  | _ => .error .typeError

/-- Python `for t in v`: the iterated elements — list elements, the
characters of a string (as strings), the keys of a dict; `TypeError` on
non-iterables. -/
def pyIter : Json → Except PyExc (List Json)
  | .jarr xs => .ok xs
  | .jstr s => .ok (s.toList.map (fun c => .jstr c.toString))
  | .jobj kvs => .ok (kvs.map (fun kv => Json.jstr kv.1))
  | _ => .error .typeError

/-- Python `t.get(key, default)` (`AttributeError` when `t` is not a dict). -/
def pyGet (t : Json) (key : String) (dflt : Json) : Except PyExc Json :=
  match t with
  | .jobj kvs =>
    match kvs.find? (fun kv => kv.1 == key) with
    | some kv => .ok kv.2
    | none => .ok dflt
  | _ => .error .attributeError

/-- A `TakeInfo` as built by `load_project` from raw JSON: Python dataclass
fields are untyped, so each field holds whatever JSON value `t.get` returned. -/
structure TakeInfoJ where
  id : Json
  wav_filename : Json
  memo : Json
  favorite : Json
  created_at : Json
  adopted : Json

/-- Embedding of the `TakeInfo(...)` construction inside `load_project`
(src/storage.py lines 48-57). -/
def buildTake (t : Json) : Except PyExc TakeInfoJ := do
  let i ← pyGet t ("id") (.jstr (""))
  let w ← pyGet t ("wav_filename") (.jstr (""))
  let m ← pyGet t ("memo") (.jstr (""))
  let fv ← pyGet t ("favorite") (.jbool false)
  let ca ← pyGet t ("created_at") (.jstr (""))
  let ad ← pyGet t ("adopted") (.jbool false)
  return { id := i, wav_filename := w, memo := m, favorite := fv, created_at := ca, adopted := ad }

/-- Embedding of the take-list construction of `load_project`
(src/storage.py lines 45-57): `if meta and "takes" in meta: for t in
meta["takes"]: takes.append(TakeInfo(...))`.  Short-circuit of `and` means a
falsy `meta` skips the `in` test. -/
def buildTakes : Option Json → Except PyExc (List TakeInfoJ)
  | none => .ok []
  | some j =>
    if jsonTruthy j then
      match pyIn takesKey j with
      | .error e => .error e
      | .ok false => .ok []
      | .ok true =>
        match pySubscript j takesKey with
        | .error e => .error e
        | .ok items =>
          match pyIter items with
          | .error e => .error e
          | .ok ts => ts.mapM buildTake
    else .ok []

/-- The project value returned by `load_project`, at the parse layer:
`script_present` records whether `script.txt` existed (it decides
`script_path`), `script_text` its contents (empty when absent). -/
structure ProjectJ where
  script_present : Bool
  script_text : String
  takes : List TakeInfoJ

/-- A project directory as `load_project` observes it. -/
structure FileSysView where
  dirExists : Bool
  script : Option String
  meta : MetaFile

/-- Embedding of `load_project` (src/storage.py lines 32-63): `none` when the
directory is missing, otherwise the script text (empty when the script file
is absent) and the takes decoded from the metadata file; any uncaught Python
exception is an `Except.error`. -/
def load_project (fs : FileSysView) : Except PyExc (Option ProjectJ) :=
  if fs.dirExists then
    match loadMeta fs.meta with
    | .error e => .error e
    | .ok meta =>
      match buildTakes meta with
      | .error e => .error e
      | .ok takes =>
        .ok (some { script_present := fs.script.isSome
                    script_text := fs.script.getD ("")
                    takes := takes })
  else .ok none


/-- Claim C2: blocks b1, b2, b3 placed in the Recorder buffer in that order
(regardless of the state flags, i.e. by any means of appending) are saved by
`save_to_wav` as the concatenation b1 ++ b2 ++ b3 at the fixed 44100 Hz
sample rate with a true return; an empty buffer returns false and writes no
file. -/
theorem c2_buffer_ordering (b1 b2 b3 : List Int) (rec pau st : Bool) :
    Recorder.save_to_wav { is_recording := rec, is_paused := pau, buffer := [b1, b2, b3], stream := st } =
      some (b1 ++ b2 ++ b3, SAMPLE_RATE) ∧
    Recorder.save_to_wav { is_recording := rec, is_paused := pau, buffer := [], stream := st } = none := by
  constructor
  · simp [Recorder.save_to_wav]
  · rfl

/-- Claim C7: when opening the capture stream fails, `start()` called from
Idle ends with the error propagated (`raised`) and the state-machine flags
back at Idle (`is_recording = false`, `is_paused = false`); `resume()` called
from RecordingPaused ends with the error propagated and the recorder equal to
its full prior state (flags RecordingPaused, buffer untouched). -/
theorem c7_open_failure_rollback (r s : Recorder)
    (h1 : r.is_recording = false) (h2 : r.is_paused = false)
    (h3 : s.is_recording = true) (h4 : s.is_paused = true) :
    (r.start false).1 = CallResult.raised ∧
    (r.start false).2.is_recording = false ∧
    (r.start false).2.is_paused = false ∧
    (s.resume false).1 = CallResult.raised ∧
    (s.resume false).2 = s := by
  cases r; cases s
  simp_all [Recorder.start, Recorder.resume]

/-- Witness for C7 at a concrete Idle recorder and a concrete paused recorder. -/
theorem c7_open_failure_rollback_witness :
    (Recorder.start ⟨false, false, [], false⟩ false).1 = CallResult.raised :=
  (c7_open_failure_rollback ⟨false, false, [], false⟩ ⟨true, true, [[3]], false⟩
    rfl rfl rfl rfl).1

/-- Claim C10: `pause()` performs no state check — from Idle it sets
`is_paused` true while `is_recording` stays false; from that state `resume()`
returns false and changes nothing (it requires both flags), while `start()`
(with the capture stream opening successfully) returns true and resets
`is_paused` to false. -/
theorem c10_pause_without_state_check (r : Recorder) (h : r.is_recording = false) :
    r.pause.is_paused = true ∧
    r.pause.is_recording = false ∧
    (∀ openOk, (r.pause.resume openOk).1 = CallResult.retFalse ∧
      (r.pause.resume openOk).2 = r.pause) ∧
    (r.pause.start true).1 = CallResult.retTrue ∧
    (r.pause.start true).2.is_paused = false := by
  cases r
  simp_all [Recorder.pause, Recorder.resume, Recorder.start]

/-- Witness for C10 at the freshly constructed Idle recorder. -/
theorem c10_pause_without_state_check_witness :
    (Recorder.pause ⟨false, false, [], false⟩).is_paused = true :=
  (c10_pause_without_state_check ⟨false, false, [], false⟩ rfl).1

/-- Claim C8 (spec-modelled): `get_wav_duration_seconds` returns 0.0 for a
missing or unreadable file; for a readable file with a positive sample rate
the returned duration times the sample rate is the sample count, i.e. the
duration is computed from the file's frame count and sample rate metadata. -/
theorem c8_wav_duration (f r : Nat) (h : 0 < r) :
    get_wav_duration_seconds none = 0 ∧
    get_wav_duration_seconds (some (f, r)) * (r : ℚ) = (f : ℚ) := by
  have hr : (r : ℚ) ≠ 0 := Nat.cast_ne_zero.mpr (Nat.pos_iff_ne_zero.mp h)
  exact ⟨rfl, div_mul_cancel₀ _ hr⟩

/-- Witness for C8: a 2-second file at 44100 Hz. -/
theorem c8_wav_duration_witness :
    get_wav_duration_seconds (some (88200, 44100)) * (44100 : ℚ) = (88200 : ℚ) :=
  (c8_wav_duration 88200 44100 (by decide)).2

/-- Claim C4 counterexample: a metadata file whose content is the valid JSON
document `5` makes `load_project` raise `TypeError` (at `"takes" in meta`,
since an int is not a container), so `load_project` does not return an
empty-take project for every metadata file content — contrary to the claim
that it never raises on any metadata file content. -/
theorem c4_counterexample :
    load_project { dirExists := true, script := none, meta := .json (.jnum 5) } =
      Except.error PyExc.typeError := rfl

/-- Claim C4 (amended): metadata that cannot be parsed as JSON, or whose read
raises an OSError, is treated exactly as an absent metadata file, yielding a
project with an empty take list; however `load_project` can still raise on
some metadata file contents: undecodable bytes propagate a
`UnicodeDecodeError`, and well-formed JSON of an unexpected shape can raise
(see the counterexample). -/
theorem c4_lenient_meta_read (s : Option String) :
    load_project { dirExists := true, script := s, meta := .badJson } =
      load_project { dirExists := true, script := s, meta := .absent } ∧
    load_project { dirExists := true, script := s, meta := .unreadableOS } =
      load_project { dirExists := true, script := s, meta := .absent } ∧
    load_project { dirExists := true, script := s, meta := .absent } =
      Except.ok (some { script_present := s.isSome, script_text := s.getD (""), takes := [] }) ∧
    load_project { dirExists := true, script := s, meta := .notUtf8 } =
      Except.error PyExc.unicodeDecodeError :=
  ⟨rfl, rfl, rfl, rfl⟩

/-- Claim C3 counterexample: with the cursor at offset 3 inside the heading
line `"# Alpha"`, the code returns `"Alpha"` — the text after the cursor on
the cursor's line is part of the scanned region — whereas the claim's region
("text on that line up to, but not including, text after the cursor") would
give `"A"`. -/
theorem c3_counterexample :
    get_current_section ("# Alpha".toList) 3 = "Alpha".toList ∧
    ¬ get_current_section ("# Alpha".toList) 3 = "A".toList :=
  ⟨by decide, by decide⟩

/-- Claim C6 counterexample: for the script `"# ???"` (heading that sanitizes
to the empty string) with the cursor at its end and no existing files, the
code returns `"_01"`, not `"take_01"` — the fallback to the literal token
`take` happens only when no heading applies, not when sanitizing yields
empty. -/
theorem c6_counterexample :
    suggest_take_basename ("# ???".toList) 5 [] = "_01".toList ∧
    ¬ suggest_take_basename ("# ???".toList) 5 [] = "take_01".toList :=
  ⟨by decide, by decide⟩

/-- Number of takes currently flagged adopted. -/
def countAdopted (ts : List TakeInfo) : Nat :=
  ts.countP (fun t => t.adopted)

/-- The takes' ids, in list order. -/
def idsOf (ts : List TakeInfo) : List String :=
  ts.map (fun t => t.id)

/-- Folding a sequence of `update_take_adopted` calls over a project. -/
def applyCalls (p : Project) : List (String × Bool) → Project
  | [] => p
  | c :: cs => applyCalls ((p.update_take_adopted c.1 c.2).2) cs

theorem idsOf_setAdoptedFlags (i : String) (ts : List TakeInfo) :
    idsOf (setAdoptedFlags i ts) = idsOf ts := by
  induction ts with
  | nil => rfl
  | cons t ts ih => simp [setAdoptedFlags, idsOf]

theorem idsOf_modifyFirstMatch (i : String) (f : TakeInfo → TakeInfo)
    (hf : ∀ t, (f t).id = t.id) (ts : List TakeInfo) :
    idsOf (modifyFirstMatch i f ts) = idsOf ts := by
  induction ts with
  | nil => rfl
  | cons t ts ih =>
    rw [modifyFirstMatch]
    split
    · simp [idsOf, hf]
    · simpa [idsOf] using ih

theorem countP_id_le_one (i : String) (ts : List TakeInfo) (h : (idsOf ts).Nodup) :
    ts.countP (fun t => t.id == i) ≤ 1 := by
  induction ts with
  | nil => simp
  | cons t ts ih =>
    rw [idsOf, List.map_cons, List.nodup_cons] at h
    rw [List.countP_cons]
    by_cases hc : t.id = i
    · have hz : ts.countP (fun t => t.id == i) = 0 := by
        rw [List.countP_eq_zero]
        intro x hx hxi
        have hxid : x.id = i := by simpa using hxi
        apply h.1
        rw [hc, ← hxid]
        exact List.mem_map_of_mem (fun t => t.id) hx
      rw [hz, hc]
      simp
    · have hf : (t.id == i) = false := beq_eq_false_iff_ne.mpr hc
      simpa [hf] using ih h.2

theorem countAdopted_setAdoptedFlags_le (i : String) (ts : List TakeInfo)
    (h : (idsOf ts).Nodup) : countAdopted (setAdoptedFlags i ts) ≤ 1 := by
  rw [countAdopted, setAdoptedFlags, List.countP_map]
  exact countP_id_le_one i ts h

theorem countAdopted_clear_le (i : String) (ts : List TakeInfo) :
    countAdopted (modifyFirstMatch i (fun t => { t with adopted := false }) ts) ≤
      countAdopted ts := by
  induction ts with
  | nil => exact Nat.le_refl 0
  | cons t ts ih =>
    rw [modifyFirstMatch]
    split
    · cases ht : t.adopted <;> simp [countAdopted, List.countP_cons, ht]
    · simp only [countAdopted, List.countP_cons] at ih ⊢
      omega

theorem countAdopted_modify_preserve (i : String) (f : TakeInfo → TakeInfo)
    (hf : ∀ t, (f t).adopted = t.adopted) (ts : List TakeInfo) :
    countAdopted (modifyFirstMatch i f ts) = countAdopted ts := by
  induction ts with
  | nil => rfl
  | cons t ts ih =>
    rw [modifyFirstMatch]
    split
    · simp [countAdopted, List.countP_cons, hf]
    · simp only [countAdopted, List.countP_cons] at ih ⊢
      omega

theorem update_adopted_ids (p : Project) (i : String) (b : Bool) :
    idsOf ((p.update_take_adopted i b).2.takes) = idsOf p.takes := by
  rcases hgt : p.get_take i with _ | t
  · simp [Project.update_take_adopted, hgt]
  · cases b
    · simp only [Project.update_take_adopted, hgt]
      rw [if_neg Bool.false_ne_true]
      exact idsOf_modifyFirstMatch i (fun t => { t with adopted := false }) (fun t => rfl) p.takes
    · simp [Project.update_take_adopted, hgt, idsOf_setAdoptedFlags]

theorem update_adopted_count_le (p : Project) (i : String) (b : Bool)
    (hnd : (idsOf p.takes).Nodup) (hle : countAdopted p.takes ≤ 1) :
    countAdopted ((p.update_take_adopted i b).2.takes) ≤ 1 := by
  rcases hgt : p.get_take i with _ | t
  · simpa [Project.update_take_adopted, hgt] using hle
  · cases b
    · calc countAdopted ((p.update_take_adopted i false).2.takes)
          = countAdopted (modifyFirstMatch i (fun t => { t with adopted := false }) p.takes) := by
            simp [Project.update_take_adopted, hgt]
        _ ≤ countAdopted p.takes := countAdopted_clear_le i p.takes
        _ ≤ 1 := hle
    · calc countAdopted ((p.update_take_adopted i true).2.takes)
          = countAdopted (setAdoptedFlags i p.takes) := by
            simp [Project.update_take_adopted, hgt]
        _ ≤ 1 := countAdopted_setAdoptedFlags_le i p.takes hnd

theorem applyCalls_inv (cs : List (String × Bool)) :
    ∀ p : Project, (idsOf p.takes).Nodup → countAdopted p.takes ≤ 1 →
      countAdopted ((applyCalls p cs).takes) ≤ 1 := by
  induction cs with
  | nil => intro p _ hle; exact hle
  | cons c cs ih =>
    intro p hnd hle
    rw [applyCalls]
    exact ih _ (by rw [update_adopted_ids]; exact hnd)
      (update_adopted_count_le p c.1 c.2 hnd hle)

theorem find?_modifyFirstMatch_ne (i j : String) (hij : j ≠ i) (f : TakeInfo → TakeInfo)
    (hf : ∀ t, (f t).id = t.id) (ts : List TakeInfo) :
    (modifyFirstMatch i f ts).find? (fun t => t.id == j) = ts.find? (fun t => t.id == j) := by
  induction ts with
  | nil => rfl
  | cons t ts ih =>
    rw [modifyFirstMatch]
    split
    · rename_i hti
      have hti' : t.id = i := by simpa using hti
      have hj : (t.id == j) = false := beq_eq_false_iff_ne.mpr (by rw [hti']; exact fun e => hij e.symm)
      have hjf : ((f t).id == j) = false := by rw [hf]; exact hj
      rw [List.find?_cons_of_neg _ (by simp [hjf]), List.find?_cons_of_neg _ (by simp [hj])]
    · rename_i hti
      by_cases hj : (t.id == j) = true
      · rw [List.find?_cons_of_pos _ (by simp [hj]), List.find?_cons_of_pos _ (by simp [hj])]
      · rw [List.find?_cons_of_neg _ (by simpa using hj), List.find?_cons_of_neg _ (by simpa using hj)]
        exact ih

theorem find?_modifyFirstMatch_eq (i : String) (f : TakeInfo → TakeInfo)
    (hf : ∀ t, (f t).id = t.id) (ts : List TakeInfo) :
    (modifyFirstMatch i f ts).find? (fun t => t.id == i) =
      (ts.find? (fun t => t.id == i)).map f := by
  induction ts with
  | nil => rfl
  | cons t ts ih =>
    rw [modifyFirstMatch]
    split
    · rename_i hti
      have htif : ((f t).id == i) = true := by rw [hf]; exact hti
      rw [List.find?_cons_of_pos _ (by simp [htif]), List.find?_cons_of_pos _ (by simp [hti])]
      rfl
    · rename_i hti
      have hti' : (t.id == i) = false := by simpa using hti
      rw [List.find?_cons_of_neg _ (by simp [hti']), List.find?_cons_of_neg _ (by simp [hti'])]
      exact ih

theorem update_false_takes (p : Project) (i : String) (t : TakeInfo)
    (hgt : p.get_take i = some t) :
    (p.update_take_adopted i false).2.takes =
      modifyFirstMatch i (fun t => { t with adopted := false }) p.takes := by
  simp only [Project.update_take_adopted, hgt]
  rw [if_neg Bool.false_ne_true]

theorem update_false_get_take_self (p : Project) (i : String) (t : TakeInfo)
    (hgt : p.get_take i = some t) :
    (p.update_take_adopted i false).2.get_take i = some { t with adopted := false } := by
  have hfind : p.takes.find? (fun x => x.id == i) = some t := hgt
  simp only [Project.get_take, update_false_takes p i t hgt]
  rw [find?_modifyFirstMatch_eq i (fun t => { t with adopted := false }) (fun t => rfl) p.takes,
    hfind]
  rfl

theorem update_false_get_take_other (p : Project) (i j : String) (t : TakeInfo)
    (hgt : p.get_take i = some t) (hij : j ≠ i) :
    (p.update_take_adopted i false).2.get_take j = p.get_take j := by
  simp only [Project.get_take, update_false_takes p i t hgt]
  exact find?_modifyFirstMatch_ne i j hij (fun t => { t with adopted := false })
    (fun t => rfl) p.takes

theorem update_take_meta_count_le (p : Project) (i : String)
    (m : Option String) (fv : Option Bool) (b : Bool)
    (hnd : (idsOf p.takes).Nodup) (hle : countAdopted p.takes ≤ 1)
    (p' : Project) (h : (update_take_meta (some p) i m fv (some b)).2 = some p') :
    countAdopted p'.takes ≤ 1 := by
  have key : ∀ q : Project, idsOf q.takes = idsOf p.takes →
      countAdopted q.takes = countAdopted p.takes →
      countAdopted ((q.update_take_adopted i b).2.takes) ≤ 1 := fun q hq1 hq2 =>
    update_adopted_count_le q i b (by rw [hq1]; exact hnd) (by rw [hq2]; exact hle)
  rcases hgt : p.get_take i with _ | t
  · simp only [update_take_meta, hgt] at h
    rw [← Option.some_inj.mp h]
    exact hle
  · rcases m with _ | mv <;> rcases fv with _ | fvv <;>
      simp only [update_take_meta, hgt] at h <;> rw [← Option.some_inj.mp h]
    · exact key p rfl rfl
    · exact key _
        (idsOf_modifyFirstMatch i (fun t => { t with favorite := fvv }) (fun t => rfl) p.takes)
        (countAdopted_modify_preserve i (fun t => { t with favorite := fvv }) (fun t => rfl) p.takes)
    · exact key _
        (idsOf_modifyFirstMatch i (fun t => { t with memo := mv }) (fun t => rfl) p.takes)
        (countAdopted_modify_preserve i (fun t => { t with memo := mv }) (fun t => rfl) p.takes)
    · exact key _
        ((idsOf_modifyFirstMatch i (fun t => { t with favorite := fvv }) (fun t => rfl)
            (modifyFirstMatch i (fun t => { t with memo := mv }) p.takes)).trans
          (idsOf_modifyFirstMatch i (fun t => { t with memo := mv }) (fun t => rfl) p.takes))
        ((countAdopted_modify_preserve i (fun t => { t with favorite := fvv }) (fun t => rfl)
            (modifyFirstMatch i (fun t => { t with memo := mv }) p.takes)).trans
          (countAdopted_modify_preserve i (fun t => { t with memo := mv }) (fun t => rfl) p.takes))

/-- Claim C1 (amended): for every Project whose take ids are pairwise
distinct, starting from a state with at most one adopted take, every sequence
of `update_take_adopted` calls keeps at most one take adopted at every
intermediate state; `update_take_adopted(i, true)` with an existing id
returns true and sets each take's adopted flag to (its id = i) — the target
true, every other take false, so a previously adopted take ends cleared;
`update_take_adopted(i, false)` returns true, sets the target's flag false
and leaves every other id's take unchanged; both calls return false and
change nothing when the id is not found; and `update_take_meta` with an
adopted value provided preserves the at-most-one-adopted invariant of the
on-disk metadata.  (The pairwise-distinct hypothesis is forced by the
counterexample: with duplicated ids a single call can adopt two takes.) -/
theorem c1_adopted_invariant (p : Project)
    (hnd : (idsOf p.takes).Nodup) (hle : countAdopted p.takes ≤ 1) :
    (∀ cs, countAdopted ((applyCalls p cs).takes) ≤ 1) ∧
    (∀ i, (p.get_take i).isSome = true →
      (p.update_take_adopted i true).1 = true ∧
      ∀ x ∈ (p.update_take_adopted i true).2.takes, x.adopted = (x.id == i)) ∧
    (∀ i t, p.get_take i = some t →
      (p.update_take_adopted i false).1 = true ∧
      (p.update_take_adopted i false).2.get_take i = some { t with adopted := false } ∧
      ∀ j, j ≠ i → (p.update_take_adopted i false).2.get_take j = p.get_take j) ∧
    (∀ i b, p.get_take i = none → p.update_take_adopted i b = (false, p)) ∧
    (∀ i m fv b p', (update_take_meta (some p) i m fv (some b)).2 = some p' →
      countAdopted p'.takes ≤ 1) := by
  refine ⟨fun cs => applyCalls_inv cs p hnd hle, ?_, ?_, ?_, ?_⟩
  · intro i hi
    rcases hgt : p.get_take i with _ | t
    · rw [hgt] at hi; simp at hi
    · refine ⟨by simp [Project.update_take_adopted, hgt], ?_⟩
      intro x hx
      simp only [Project.update_take_adopted, hgt, if_pos] at hx
      rcases List.mem_map.mp hx with ⟨a, _, rfl⟩
      rfl
  · intro i t hgt
    exact ⟨by simp [Project.update_take_adopted, hgt],
      update_false_get_take_self p i t hgt,
      fun j hij => update_false_get_take_other p i j t hgt hij⟩
  · intro i b h
    simp [Project.update_take_adopted, h]
  · intro i m fv b p' h
    exact update_take_meta_count_le p i m fv b hnd hle p' h

/-- Witness project for C1: two distinct ids, one adopted take. -/
def c1WitnessProj : Project :=
  { takes := [{ id := "a", wav_filename := "a.wav", adopted := true },
              { id := "b", wav_filename := "b.wav" }] }

/-- Witness for C1 at a concrete project and call sequence. -/
theorem c1_adopted_invariant_witness :
    countAdopted ((applyCalls c1WitnessProj [("b", true), ("b", false)]).takes) ≤ 1 :=
  (c1_adopted_invariant c1WitnessProj (by decide) (by decide)).1 _

/-- Project with a duplicated take id (the Project layer enforces no id
uniqueness, per spec section 4.2). -/
def c1DupProj : Project :=
  { takes := [{ id := "dup", wav_filename := "t1.wav" },
              { id := "dup", wav_filename := "t2.wav" }] }

/-- Claim C1 counterexample: starting from a project with no adopted take (so
at most one), a single `update_take_adopted` call with a duplicated id
returns true and leaves TWO takes adopted, violating the claimed at-most-one
invariant as stated for every Project. -/
theorem c1_counterexample :
    countAdopted c1DupProj.takes = 0 ∧
    (c1DupProj.update_take_adopted ("dup") true).1 = true ∧
    countAdopted (c1DupProj.update_take_adopted ("dup") true).2.takes = 2 :=
  ⟨by decide, by decide, by decide⟩

/-- Claim C9: a single `update_take_adopted(i, true)` with an existing id
returns true and leaves exactly the takes with that id adopted and every
other take cleared — even when several takes were adopted beforehand, the
call repairs the multi-adopted state. -/
theorem c9_adopt_repairs (p : Project) (i : String)
    (h : (p.get_take i).isSome = true) :
    (p.update_take_adopted i true).1 = true ∧
    ∀ x ∈ (p.update_take_adopted i true).2.takes,
      (x.id = i → x.adopted = true) ∧ (x.id ≠ i → x.adopted = false) := by
  rcases hgt : p.get_take i with _ | t
  · rw [hgt] at h; simp at h
  · refine ⟨by simp [Project.update_take_adopted, hgt], ?_⟩
    intro x hx
    simp only [Project.update_take_adopted, hgt, if_pos] at hx
    rcases List.mem_map.mp hx with ⟨a, _, rfl⟩
    constructor
    · intro hid
      have : a.id = i := hid
      simp [this]
    · intro hid
      have : a.id ≠ i := hid
      simp [this]

/-- Witness project for C9: externally corrupted state with two takes already
adopted. -/
def c9MultiProj : Project :=
  { takes := [{ id := "a", wav_filename := "a.wav", adopted := true },
              { id := "b", wav_filename := "b.wav", adopted := true },
              { id := "c", wav_filename := "c.wav" }] }

/-- Witness for C9 at the multi-adopted project: the call succeeds, and the
repaired state has exactly one adopted take. -/
theorem c9_adopt_repairs_witness :
    (c9MultiProj.update_take_adopted ("c") true).1 = true ∧
    countAdopted (c9MultiProj.update_take_adopted ("c") true).2.takes = 1 :=
  ⟨(c9_adopt_repairs c9MultiProj ("c") (by decide)).1, by decide⟩

theorem takeWhile_eq_take_len {α : Type} (p : α → Bool) (l : List α) :
    l.takeWhile p = l.take (l.takeWhile p).length := by
  induction l with
  | nil => rfl
  | cons a as ih =>
    rw [List.takeWhile_cons]
    split
    · simpa [List.take_succ_cons] using ih
    · rfl

theorem take_append_takeWhile (text : List Char) (cursor : Nat) (p : Char → Bool) :
    text.take cursor ++ (text.drop cursor).takeWhile p =
      text.take (cursor + ((text.drop cursor).takeWhile p).length) := by
  rw [List.take_add]
  congr 1
  exact takeWhile_eq_take_len p (text.drop cursor)

/-- Claim C3 (amended): `get_current_section` scans backward from the line
containing `cursor_position`, and the scanned region includes the ENTIRE line
containing the cursor — text after the cursor on that line included — except
that when the cursor sits at the start of its line that line contributes
nothing; it returns the heading name of the nearest such line whose trimmed
content starts with a heading marker (`## ` evaluated before `# `), and the
empty string when no heading precedes.  Stated as: the source function equals
the reference function `current_section_ref` written from that wording. -/
theorem c3_current_section_amended (script_text : List Char) (cursor_position : Nat) :
    get_current_section script_text cursor_position =
      current_section_ref script_text cursor_position := by
  simp only [get_current_section, current_section_ref]
  by_cases h :
      (script_text.take cursor_position).length -
          ((script_text.take cursor_position).reverse.takeWhile (· != '\n')).length <
        cursor_position
  · rw [if_pos h, if_pos h, take_append_takeWhile]
  · rw [if_neg h, if_neg h, List.append_nil]

theorem mem_subRuns (p : Char → Bool) (l : List Char) :
    ∀ b, ∀ c ∈ subRuns p l b, c = '_' ∨ p c = false := by
  induction l with
  | nil => intro b c hc; simp [subRuns] at hc
  | cons a as ih =>
    intro b c hc
    rw [subRuns] at hc
    by_cases hpa : p a
    · rw [if_pos hpa] at hc
      by_cases hb : b
      · rw [if_pos hb] at hc
        exact ih true c hc
      · rw [if_neg hb] at hc
        rcases List.mem_cons.mp hc with rfl | hc
        · exact Or.inl rfl
        · exact ih true c hc
    · rw [if_neg hpa] at hc
      rcases List.mem_cons.mp hc with rfl | hc
      · exact Or.inr (Bool.not_eq_true _ ▸ eq_false_of_ne_true hpa)
      · exact ih false c hc

theorem subRuns_id (p : Char → Bool) (l : List Char) (h : ∀ c ∈ l, p c = false) :
    ∀ b, subRuns p l b = l := by
  induction l with
  | nil => intro b; rfl
  | cons a as ih =>
    intro b
    rw [subRuns, if_neg (by simp [h a (List.mem_cons_self a as)])]
    rw [ih (fun c hc => h c (List.mem_cons_of_mem a hc)) false]

theorem mem_dropWhile (p : Char → Bool) (l : List Char) :
    ∀ c ∈ l.dropWhile p, c ∈ l := by
  induction l with
  | nil => intro c hc; simp at hc
  | cons a as ih =>
    intro c hc
    rw [List.dropWhile_cons] at hc
    split at hc
    · exact List.mem_cons_of_mem a (ih c hc)
    · exact hc

theorem head?_dropWhile_false (p : Char → Bool) (l : List Char) (c : Char)
    (h : (l.dropWhile p).head? = some c) : p c = false := by
  induction l with
  | nil => simp at h
  | cons a as ih =>
    rw [List.dropWhile_cons] at h
    split at h
    · exact ih h
    · rename_i hpa
      rw [List.head?_cons, Option.some_inj] at h
      rw [← h]
      exact eq_false_of_ne_true hpa

theorem dropWhile_of_head_false (p : Char → Bool) (l : List Char)
    (h : ∀ c, l.head? = some c → p c = false) : l.dropWhile p = l := by
  cases l with
  | nil => rfl
  | cons a as =>
    rw [List.dropWhile_cons, if_neg]
    rw [h a rfl]
    simp

theorem mem_rstripBy (p : Char → Bool) (l : List Char) :
    ∀ c ∈ rstripBy p l, c ∈ l := by
  induction l with
  | nil => intro c hc; simp [rstripBy] at hc
  | cons a as ih =>
    intro c hc
    rw [rstripBy] at hc
    rcases hr : rstripBy p as with _ | ⟨hd, tl⟩ <;> rw [hr] at hc
    · by_cases hpa : p a
      · simp [hpa] at hc
      · simp [hpa] at hc
        simp [hc]
    · have hc' : c ∈ a :: hd :: tl := hc
      rcases List.mem_cons.mp hc' with rfl | hmem
      · exact List.mem_cons_self c as
      · exact List.mem_cons_of_mem a (ih c (by rw [hr]; exact hmem))

theorem length_rstripBy_le (p : Char → Bool) (l : List Char) :
    (rstripBy p l).length ≤ l.length := by
  induction l with
  | nil => exact Nat.le_refl 0
  | cons a as ih =>
    rw [rstripBy]
    rcases hr : rstripBy p as with _ | ⟨hd, tl⟩
    · by_cases hpa : p a
      · simp [hpa]
      · simp [hpa]
    · rw [hr] at ih
      exact Nat.succ_le_succ ih

theorem head?_rstripBy (p : Char → Bool) (l : List Char) (c : Char)
    (h : (rstripBy p l).head? = some c) : l.head? = some c := by
  cases l with
  | nil => simp [rstripBy] at h
  | cons a as =>
    rw [rstripBy] at h
    rcases hr : rstripBy p as with _ | ⟨hd, tl⟩ <;> rw [hr] at h
    · by_cases hpa : p a
      · simp [hpa] at h
      · simp [hpa] at h
        rw [List.head?_cons, h]
    · have h' : some a = some c := h
      rw [List.head?_cons, Option.some_inj.mp h']

theorem rstripBy_idem (p : Char → Bool) (l : List Char) :
    rstripBy p (rstripBy p l) = rstripBy p l := by
  induction l with
  | nil => rfl
  | cons a as ih =>
    rw [rstripBy]
    rcases hr : rstripBy p as with _ | ⟨hd, tl⟩
    · by_cases hpa : p a
      · rw [if_pos hpa]
        rfl
      · rw [if_neg hpa]
        rw [rstripBy, show rstripBy p [] = [] from rfl, if_neg hpa]
    · rw [hr] at ih
      rw [rstripBy, ih]

theorem head?_take_pos {α : Type} (l : List α) (n : Nat) (hn : 0 < n) :
    (l.take n).head? = l.head? := by
  cases l with
  | nil => simp
  | cons a as =>
    rcases n with _ | m
    · exact absurd hn (Nat.lt_irrefl 0)
    · rw [List.take_succ_cons, List.head?_cons, List.head?_cons]

theorem sanitize_fixed (y : List Char)
    (hne : y.isEmpty = false)
    (hcl : ∀ c ∈ y, isIllegalChar c = false ∧ isWsChar c = false)
    (hhd : ∀ c, y.head? = some c → isStripChar c = false)
    (hlen : y.length ≤ 64)
    (hrs : rstripBy isStripChar y = y) :
    sanitize_for_filename y = y := by
  have h1 : pySubUnderscore (fun c => isIllegalChar c || isWsChar c) y = y :=
    subRuns_id _ _ (fun c hc => by simp [(hcl c hc).1, (hcl c hc).2]) false
  have h2 : pySubUnderscore isWsChar y = y :=
    subRuns_id _ _ (fun c hc => (hcl c hc).2) false
  have h3 : y.dropWhile isStripChar = y := dropWhile_of_head_false _ _ hhd
  have h4 : y.take 64 = y := List.take_of_length_le hlen
  simp [sanitize_for_filename, hne, nfkcNormalize, h1, h2, h3, h4, hrs]

/-- Claim C5: for every input string and the default max_length,
`sanitize_for_filename` is idempotent; its output contains none of the nine
characters \ / : * ? " < > | and never starts with '.', '_' or a space. -/
theorem c5_sanitize_idempotent_safe (x : List Char) :
    sanitize_for_filename (sanitize_for_filename x) = sanitize_for_filename x ∧
    (∀ c ∈ sanitize_for_filename x, isIllegalChar c = false) ∧
    (∀ c, (sanitize_for_filename x).head? = some c → isStripChar c = false) := by
  by_cases hx : x.isEmpty = true
  · have hxe : x = [] := by cases x <;> simp_all
    subst hxe
    exact ⟨rfl, fun c hc => by simp [sanitize_for_filename] at hc,
      fun c hc => by simp [sanitize_for_filename] at hc⟩
  · have hxf : x.isEmpty = false := by simpa using hx
    have hclean : ∀ c ∈ pySubUnderscore (fun c => isIllegalChar c || isWsChar c) x,
        isIllegalChar c = false ∧ isWsChar c = false := by
      intro c hc
      rcases mem_subRuns _ _ false c hc with rfl | hpc
      · exact ⟨rfl, rfl⟩
      · exact ⟨(Bool.or_eq_false_iff.mp hpc).1, (Bool.or_eq_false_iff.mp hpc).2⟩
    have hn3 : pySubUnderscore isWsChar
          (pySubUnderscore (fun c => isIllegalChar c || isWsChar c) x) =
        pySubUnderscore (fun c => isIllegalChar c || isWsChar c) x :=
      subRuns_id _ _ (fun c hc => (hclean c hc).2) false
    have hy : sanitize_for_filename x =
        (if ((pySubUnderscore (fun c => isIllegalChar c || isWsChar c) x).dropWhile
              isStripChar).isEmpty then []
         else rstripBy isStripChar
           (((pySubUnderscore (fun c => isIllegalChar c || isWsChar c) x).dropWhile
              isStripChar).take 64)) := by
      simp [sanitize_for_filename, hxf, nfkcNormalize, hn3]
    by_cases hemp : ((pySubUnderscore (fun c => isIllegalChar c || isWsChar c) x).dropWhile
        isStripChar).isEmpty = true
    · have hy0 : sanitize_for_filename x = [] := by rw [hy, if_pos hemp]
      rw [hy0]
      exact ⟨rfl, fun c hc => by simp at hc, fun c hc => by simp at hc⟩
    · have hyn : sanitize_for_filename x =
          rstripBy isStripChar
            (((pySubUnderscore (fun c => isIllegalChar c || isWsChar c) x).dropWhile
              isStripChar).take 64) := by
        rw [hy, if_neg hemp]
      have hsub : ∀ c ∈ sanitize_for_filename x,
          isIllegalChar c = false ∧ isWsChar c = false := by
        intro c hc
        rw [hyn] at hc
        exact hclean c (mem_dropWhile _ _ c (List.take_subset 64 _ (mem_rstripBy _ _ c hc)))
      have hhead : ∀ c, (sanitize_for_filename x).head? = some c → isStripChar c = false := by
        intro c hc
        rw [hyn] at hc
        have h1 := head?_rstripBy _ _ _ hc
        rw [head?_take_pos _ 64 (by omega)] at h1
        exact head?_dropWhile_false _ _ _ h1
      refine ⟨?_, fun c hc => (hsub c hc).1, hhead⟩
      by_cases hy0 : sanitize_for_filename x = []
      · rw [hy0]
        rfl
      · have hyne : (sanitize_for_filename x).isEmpty = false := by
          rcases hsx : sanitize_for_filename x with _ | ⟨a, as⟩
          · exact absurd hsx hy0
          · rfl
        have hlen : (sanitize_for_filename x).length ≤ 64 := by
          rw [hyn]
          calc (rstripBy isStripChar
                (((pySubUnderscore (fun c => isIllegalChar c || isWsChar c) x).dropWhile
                  isStripChar).take 64)).length
              ≤ (((pySubUnderscore (fun c => isIllegalChar c || isWsChar c) x).dropWhile
                  isStripChar).take 64).length := length_rstripBy_le _ _
            _ ≤ 64 := List.length_take_le _ _
        have hrs : rstripBy isStripChar (sanitize_for_filename x) = sanitize_for_filename x := by
          rw [hyn]
          exact rstripBy_idem _ _
        exact sanitize_fixed (sanitize_for_filename x) hyne hsub hhead hlen hrs

/-- Witness for C5: the idempotence equation and the head condition evaluated
at the concrete input `"._a?b "`. -/
theorem c5_sanitize_idempotent_safe_witness :
    sanitize_for_filename (sanitize_for_filename ("._a?b ".toList)) =
      sanitize_for_filename ("._a?b ".toList) ∧
    isIllegalChar 'a' = false :=
  ⟨(c5_sanitize_idempotent_safe ("._a?b ".toList)).1,
    (c5_sanitize_idempotent_safe ("._a?b ".toList)).2.1 'a' (by decide)⟩

theorem pref_append_self {α : Type} [BEq α] [LawfulBEq α] (l t : List α) :
    l.isPrefixOf (l ++ t) = true := by
  induction l with
  | nil => simp [List.isPrefixOf]
  | cons a as ih => simp [List.isPrefixOf, ih]

theorem sufOf_append_self (t l : List Char) : t.isSuffixOf (l ++ t) = true := by
  simp only [List.isSuffixOf, List.reverse_append]
  exact pref_append_self _ _

theorem matchNum_append (stem t : List Char) : matchNum stem (stem ++ t) = matchNum [] t := by
  induction stem with
  | nil => rfl
  | cons b bs ih =>
    show (if ciEq b b then matchNum bs (bs ++ t) else none) = matchNum [] t
    rw [if_pos (by simp [ciEq]), ih]

theorem takeWhile_all {α : Type} (p : α → Bool) (l : List α) (h : ∀ c ∈ l, p c = true) :
    l.takeWhile p = l := by
  induction l with
  | nil => rfl
  | cons a as ih =>
    rw [List.takeWhile_cons, if_pos (h a (List.mem_cons_self a as))]
    rw [ih (fun c hc => h c (List.mem_cons_of_mem a hc))]

theorem matchNum_nil_underscore (ds : List Char) (hne : ds ≠ [])
    (hd : ds.all Char.isDigit = true) :
    matchNum [] ('_' :: ds) = some (digitsToNat ds) := by
  have ht : ds.takeWhile Char.isDigit = ds :=
    takeWhile_all _ _ (fun c hc => List.all_eq_true.mp hd c hc)
  have hie : ds.isEmpty = false := by
    cases ds
    · exact absurd rfl hne
    · rfl
  show (if (ds.takeWhile Char.isDigit).isEmpty then none
        else some (digitsToNat (ds.takeWhile Char.isDigit))) = some (digitsToNat ds)
  rw [ht, hie]
  simp

theorem lowerEndsWithWav_append (u : List Char) :
    lowerEndsWithWav (u ++ ".wav".toList) = true := by
  simp only [lowerEndsWithWav, List.map_append]
  rw [show (".wav".toList).map Char.toLower = ".wav".toList from by decide]
  exact sufOf_append_self _ _

theorem take_pref_append (u t : List Char) :
    (u ++ t).take ((u ++ t).length - t.length) = u := by
  rw [List.length_append, show u.length + t.length - t.length = u.length from by omega]
  exact List.take_left u t

theorem scanOne_wavfile (stem : List Char) (acc : Nat) (ds : List Char)
    (hne : ds ≠ []) (hd : ds.all Char.isDigit = true) :
    scanOne stem acc (stem ++ '_' :: (ds ++ ".wav".toList)) = max acc (digitsToNat ds) := by
  have hsplit : stem ++ '_' :: (ds ++ ".wav".toList) = (stem ++ '_' :: ds) ++ ".wav".toList := by
    simp
  have hwav : lowerEndsWithWav (stem ++ '_' :: (ds ++ ".wav".toList)) = true := by
    rw [hsplit]
    exact lowerEndsWithWav_append _
  have hbase : (stem ++ '_' :: (ds ++ ".wav".toList)).take
      ((stem ++ '_' :: (ds ++ ".wav".toList)).length - 4) = stem ++ '_' :: ds := by
    rw [hsplit]
    exact take_pref_append _ _
  have hmatch : matchNum stem (stem ++ '_' :: ds) = some (digitsToNat ds) := by
    rw [matchNum_append]
    exact matchNum_nil_underscore ds hne hd
  simp only [scanOne]
  rw [hwav]
  simp only [reduceIte]
  rw [hbase, hmatch]

theorem foldl_scanOne_wavfiles (stem : List Char) (dss : List (List Char))
    (h : ∀ ds ∈ dss, ds ≠ [] ∧ ds.all Char.isDigit = true) :
    ∀ acc, List.foldl (scanOne stem) acc
        (dss.map (fun ds => stem ++ '_' :: (ds ++ ".wav".toList))) =
      List.foldl (fun a ds => max a (digitsToNat ds)) acc dss := by
  induction dss with
  | nil => intro acc; rfl
  | cons ds dss ih =>
    intro acc
    rw [List.map_cons, List.foldl_cons, List.foldl_cons,
      scanOne_wavfile stem acc ds (h ds (List.mem_cons_self ds dss)).1
        (h ds (List.mem_cons_self ds dss)).2]
    exact ih (fun d hd => h d (List.mem_cons_of_mem _ hd)) _

/-- Claim C6 (amended): the numbering scan counts occurrences of
`prefix_NN` anywhere in a filename (case-insensitive, tolerant of a `.wav`
suffix, of trailing text after the number, and of leading text before the
prefix), takes the maximum NN and returns prefix_(NN+1) zero-padded to two
digits: for every prefix, a list prefix_01.wav .. prefix_09.wav yields
prefix_10; the fallback to the literal token `take` applies only when no
heading precedes the cursor (a heading that sanitizes to empty keeps the
empty prefix, per the counterexample); leading text before the prefix is
also counted (last conjunct). -/
theorem c6_take_numbering (stem : List Char) :
    suggestFromStem stem
      [stem ++ "_01.wav".toList, stem ++ "_02.wav".toList, stem ++ "_03.wav".toList,
       stem ++ "_04.wav".toList, stem ++ "_05.wav".toList, stem ++ "_06.wav".toList,
       stem ++ "_07.wav".toList, stem ++ "_08.wav".toList, stem ++ "_09.wav".toList] =
      stem ++ "_10".toList ∧
    suggest_take_basename ("本文のみ".toList) 0 [] = "take_01".toList ∧
    suggestFromStem ("take".toList) ["x_take_07.wav".toList] = "take_08".toList := by
  refine ⟨?_, by decide, by decide⟩
  have hfold := foldl_scanOne_wavfiles stem
    [['0', '1'], ['0', '2'], ['0', '3'], ['0', '4'], ['0', '5'], ['0', '6'], ['0', '7'],
      ['0', '8'], ['0', '9']] (by decide) 0
  simp only [suggestFromStem]
  rw [show ([stem ++ "_01.wav".toList, stem ++ "_02.wav".toList, stem ++ "_03.wav".toList,
       stem ++ "_04.wav".toList, stem ++ "_05.wav".toList, stem ++ "_06.wav".toList,
       stem ++ "_07.wav".toList, stem ++ "_08.wav".toList, stem ++ "_09.wav".toList] :
        List (List Char)) =
      ([['0', '1'], ['0', '2'], ['0', '3'], ['0', '4'], ['0', '5'], ['0', '6'], ['0', '7'],
        ['0', '8'], ['0', '9']].map (fun ds => stem ++ '_' :: (ds ++ ".wav".toList))) from rfl]
  rw [hfold]
  congr 1
